import Mathlib

/-!
Verification of the `zaps` background-job queue (`src/backend/src/queue.rs`,
`job_types.rs`, `job_worker.rs`, `job_processors.rs`) against its
natural-language specification.

Shallow embedding conventions:
* Wall-clock instants (`chrono::DateTime<Utc>`) are integers counting
  milliseconds ("ticks"); `timestamp` is chrono's `.timestamp()`, i.e. the
  floor of the instant in whole seconds.  Durations (`std::time::Duration`,
  `chrono::Duration`) are integer tick counts.
* A serialized job (`serde_json::to_string(&JobPayload)`) is modelled by
  `StoredEntry`: `StoredEntry.job j` stands for the concrete JSON byte
  string that prints `j` with the payload map keys in the order of the
  `payload` association list (serde_json prints a `HashMap` in its
  iteration order, so the key order is part of the bytes); `corrupt s`
  stands for a string that does not parse as a `JobPayload`.  Equality of
  `StoredEntry` values models byte equality of the strings.
* Deserialization (`serde_json::from_str`) rebuilds the payload `HashMap`
  whose iteration order is unrelated to the key order in the bytes; the
  model threads this nondeterminism through the `reorder` parameter of
  `dequeue` (the only place where the rebuilt map is later re-serialized).
* Redis sorted sets are lists of (member, score) pairs kept in ascending
  score order with set semantics on members; the dead-letter list is a
  plain list (left = oldest).
* Each fallible operation returns the final store state together with an
  `Except Fail` outcome, since Redis writes performed before an error
  persist.  `Fail.err` is an `anyhow` error (`Result::Err`), `Fail.panicked`
  an `unwrap` panic.
* `f64` configuration values (`backoff_multiplier`) are embedded as exact
  rationals; every concrete value used below is exactly representable in
  `f64` and the operations applied to it (`powi` with small exponents,
  comparison, truncating cast) are exact, so the embedding is faithful at
  every input any theorem below touches.
-/

deriving instance DecidableEq for Except

namespace Zaps

/-- A dynamic JSON value stored in a job body (`serde_json::Value`,
restricted to the shapes the queue code inspects). -/
inductive JVal where
  | str (s : String)
  | num (n : Int)
  | null
deriving DecidableEq, Repr

/-- Source `Value::as_str`: a string when the value is a JSON string. -/
def JVal.as_str : JVal → Option String
  | .str s => some s
  | _ => none

/-- Source `job_types.rs`: the closed set of job kinds. -/
inductive JobType where
  | email
  | notifyUser
  | sync
  | blockchainTx
deriving DecidableEq, Repr

/-- Source `job_types.rs` `JobPayload`.  `id` is the UUID rendered as a string;
`payload` is the `HashMap<String, Value>` as an association list whose
order models the map's iteration order (see module header); times are in
ticks (milliseconds). -/
structure JobPayload where
  id : String
  job_type : JobType
  payload : List (String × JVal)
  retries : Option Nat
  created_at : Int
  scheduled_at : Option Int
deriving DecidableEq, Repr

/-- A stored string in a Redis partition: either the canonical print of a
job (payload key order included) or a string that fails to parse. -/
inductive StoredEntry where
  | job (j : JobPayload)
  | corrupt (s : String)
deriving DecidableEq, Repr

/-- Source `serde_json::to_string(&job)`: prints the job with its current payload
iteration order. -/
def serialize (j : JobPayload) : StoredEntry := .job j

/-- Source `serde_json::from_str::<JobPayload>`: succeeds exactly on well-formed
entries.  The payload order of the result as returned here is the stored
key order; callers that go on to iterate the rebuilt `HashMap` apply an
arbitrary permutation (see `dequeue`). -/
def from_str : StoredEntry → Option JobPayload
  | .job j => some j
  | .corrupt _ => none

/-- Source `job_types.rs` `DeadLetterJob`. -/
structure DeadLetterJob where
  original_job : JobPayload
  error : String
  failed_at : Int
  total_attempts : Nat
deriving DecidableEq, Repr

/-- Source `queue.rs` `QueueConfig`; durations in ticks (ms), the `f64`
`backoff_multiplier` as an exact rational. -/
structure QueueConfig where
  max_retries : Nat
  visibility_timeout : Int
  backoff_multiplier : ℚ
  max_backoff : Int
  dead_letter_max_size : Nat
deriving DecidableEq

/-- Source `QueueConfig::default()`. -/
def QueueConfig.default : QueueConfig :=
  { max_retries := 3
    visibility_timeout := 300 * 1000
    backoff_multiplier := 2
    max_backoff := 3600 * 1000
    dead_letter_max_size := 10000 }

/-- chrono `DateTime::timestamp()`: whole seconds since the epoch (floor),
from an instant in ticks. -/
def timestamp (t : Int) : Int := Int.fdiv t 1000

/-- Outcome of a queue operation: an `anyhow` error or a panic. -/
inductive Fail where
  | err (msg : String)
  | panicked (msg : String)
deriving DecidableEq, Repr

/-- A Redis sorted set: (member, score) pairs in ascending score order,
members unique. -/
abbrev ZSet := List (StoredEntry × Int)

/-- Insert a scored member keeping ascending score order (ties appended
after existing equal scores, matching a deterministic tie order). -/
def zinsert (e : StoredEntry) (s : Int) : ZSet → ZSet
  | [] => [(e, s)]
  | p :: rest => if s < p.2 then (e, s) :: p :: rest else p :: zinsert e s rest

/-- Source `ZREM key member`: drop the member from the set. -/
def zrem (e : StoredEntry) (l : ZSet) : ZSet :=
  l.filter (fun p => decide (p.1 ≠ e))

/-- Source `ZADD key score member`: set the member's score (replacing any
previous score). -/
def zadd (e : StoredEntry) (s : Int) (l : ZSet) : ZSet :=
  zinsert e s (zrem e l)

/-- Source `ZRANGEBYSCORE key -inf bound`: the members with score at most the
bound, in stored (score) order. -/
def zrangebyscore_le (bound : Int) (l : ZSet) : List StoredEntry :=
  (l.filter (fun p => decide (p.2 ≤ bound))).map Prod.fst

/-- The four partitions of `queue.rs` (`zaps:jobs:queue`,
`zaps:jobs:processing`, `zaps:jobs:retry`, `zaps:jobs:dead_letter`). -/
structure Store where
  main : ZSet
  processing : ZSet
  retry : ZSet
  dead_letter : List DeadLetterJob
deriving DecidableEq, Repr

/-- The empty store. -/
def Store.empty : Store := ⟨[], [], [], []⟩

/-- Source `JobQueue::enqueue`: serialize the job and `ZADD` it to the main
queue with score `scheduled_at.unwrap_or(now).timestamp()`. -/
def enqueue (now : Int) (job : JobPayload) (st : Store) : Store :=
  let score := timestamp (job.scheduled_at.getD now)
  { st with main := zadd (serialize job) score st.main }

/-- Source `JobQueue::dequeue`, first round trip: `ZRANGEBYSCORE main -inf now
LIMIT 0 1` — the lowest-scored entry whose score is at most `now`. -/
def dequeue_read (now : Int) (st : Store) : Option StoredEntry :=
  (zrangebyscore_le (timestamp now) st.main).head?

/-- Source `JobQueue::dequeue`, second round trip: `ZREM main entry`.  The code
ignores the removal count, so this is unconditional. -/
def dequeue_remove (e : StoredEntry) (st : Store) : Store :=
  { st with main := zrem e st.main }

/-- Source `JobQueue::dequeue`, third round trip: `ZADD processing entry` with
score `now + visibility_timeout` (whole seconds). -/
def dequeue_insert (cfg : QueueConfig) (now : Int) (e : StoredEntry) (st : Store) : Store :=
  { st with processing := zadd e (timestamp (now + cfg.visibility_timeout)) st.processing }

/-- Source `JobQueue::dequeue`: read the earliest ready entry; on empty return
`None`; on parse failure return the error with no store change; otherwise
move the original string from main to processing and return the parsed
job.  `reorder` is the iteration order of the freshly rebuilt payload
`HashMap` (an arbitrary permutation chosen by the hasher). -/
def dequeue (cfg : QueueConfig) (reorder : List (String × JVal) → List (String × JVal))
    (now : Int) (st : Store) : Store × Except Fail (Option JobPayload) :=
  match dequeue_read now st with
  | none => (st, .ok none)
  | some e =>
    match from_str e with
    | none => (st, .error (.err "Failed to deserialize job"))
    | some j =>
      (dequeue_insert cfg now e (dequeue_remove e st),
       .ok (some { j with payload := reorder j.payload }))

/-- Source `JobQueue::calculate_backoff_delay`: `Duration::from_secs(1) *
(backoff_multiplier.powi(attempt) as u32)` capped at `max_backoff`; the
result in ticks.  `u32_sat` below is Rust's saturating float-to-`u32`
cast. -/
def u32_sat (q : ℚ) : Int :=
  max 0 (min (2 ^ 32 - 1) (Rat.floor q))

/-- Source `JobQueue::calculate_backoff_delay` (see `u32_sat`). -/
def calculate_backoff_delay (cfg : QueueConfig) (attempt : Nat) : Int :=
  let multiplier : ℚ := cfg.backoff_multiplier ^ attempt
  let delay : Int := 1000 * u32_sat multiplier
  min delay cfg.max_backoff

/-- Source `JobQueue::send_to_dead_letter`: build the record; if the list length
is already at least `dead_letter_max_size`, `LPOP` the oldest; `RPUSH`
the record; `ZREM` the re-serialized original job from processing. -/
def send_to_dead_letter (cfg : QueueConfig) (now : Int) (job : JobPayload)
    (error : String) (total_attempts : Nat) (st : Store) : Store × Except Fail Unit :=
  let dlj : DeadLetterJob :=
    { original_job := job, error := error, failed_at := now, total_attempts := total_attempts }
  let current_size := st.dead_letter.length
  let shrunk := if cfg.dead_letter_max_size ≤ current_size then st.dead_letter.tail
                else st.dead_letter
  ({ st with dead_letter := shrunk ++ [dlj],
             processing := zrem (serialize job) st.processing },
   .ok ())

/-- Source `JobQueue::retry_job`: `current_attempt = retries.unwrap_or(0) + 1`;
at or above `max_retries` route to the dead letter; otherwise rebuild the
job with the incremented attempt count and `scheduled_at = now + backoff`,
`ZADD` it to retry with score `scheduled_at.unwrap().timestamp()`, and
`ZREM` the re-serialized original from processing. -/
def retry_job (cfg : QueueConfig) (now : Int) (job : JobPayload) (error : String)
    (st : Store) : Store × Except Fail Unit :=
  let current_attempt := job.retries.getD 0 + 1
  if cfg.max_retries ≤ current_attempt then
    send_to_dead_letter cfg now job error current_attempt st
  else
    let backoff_delay := calculate_backoff_delay cfg current_attempt
    let retry_j : JobPayload :=
      { id := job.id, job_type := job.job_type, payload := job.payload,
        retries := some current_attempt, created_at := job.created_at,
        scheduled_at := some (now + backoff_delay) }
    match retry_j.scheduled_at with
    | none => (st, .error (.panicked "called Option unwrap on a None value"))
    | some t =>
      ({ st with retry := zadd (serialize retry_j) (timestamp t) st.retry,
                 processing := zrem (serialize job) st.processing },
       .ok ())

/-- Loop body of `JobQueue::process_retry_queue` over the fetched due
entries: parse (an error aborts, keeping earlier writes), `ZREM` from
retry, score from `scheduled_at.unwrap()` (a panic aborts after the
`ZREM`), `ZADD` to main. -/
def process_retry_go : List StoredEntry → Store → Store × Except Fail Unit
  | [], st => (st, .ok ())
  | e :: rest, st =>
    match from_str e with
    | none => (st, .error (.err "Failed to deserialize retry job"))
    | some j =>
      let st1 : Store := { st with retry := zrem e st.retry }
      match j.scheduled_at with
      | none => (st1, .error (.panicked "called Option unwrap on a None value"))
      | some t =>
        process_retry_go rest { st1 with main := zadd e (timestamp t) st1.main }

/-- Source `JobQueue::process_retry_queue`: fetch every retry entry with score at
most `now`, then move each back to main (see `process_retry_go`). -/
def process_retry_queue (now : Int) (st : Store) : Store × Except Fail Unit :=
  process_retry_go (zrangebyscore_le (timestamp now) st.retry) st

/-- The main-queue score `reclaim_stalled_jobs` gives a reclaimed entry:
`scheduled_at.unwrap_or(now).timestamp()` of the parsed job (the
`corrupt` branch is never reached after a successful parse). -/
def reclaim_score (now : Int) : StoredEntry → Int
  | .job j => timestamp (j.scheduled_at.getD now)
  | .corrupt _ => 0

/-- Loop body of `JobQueue::reclaim_stalled_jobs` over the fetched stalled
entries: parse (an error aborts, keeping earlier writes), `ZREM` from
processing, `ZADD` to main, count it. -/
def reclaim_go (now : Int) : List StoredEntry → Store → Nat → Store × Except Fail Nat
  | [], st, count => (st, .ok count)
  | e :: rest, st, count =>
    match from_str e with
    | none => (st, .error (.err "Failed to deserialize stalled job"))
    | some _ =>
      reclaim_go now rest
        { st with processing := zrem e st.processing,
                  main := zadd e (reclaim_score now e) st.main }
        (count + 1)

/-- Source `JobQueue::reclaim_stalled_jobs`: fetch every processing entry whose
score is at most `now` (expired lease) and move each back to main,
returning the number moved. -/
def reclaim_stalled_jobs (now : Int) (st : Store) : Store × Except Fail Nat :=
  reclaim_go now (zrangebyscore_le (timestamp now) st.processing) st 0

/-- Loop body of `JobQueue::complete_job` over the full processing range:
parse each entry (an error aborts), `ZREM` the first whose id matches and
stop. -/
def complete_go (job_id : String) : List StoredEntry → Store → Store × Except Fail Unit
  | [], st => (st, .ok ())
  | e :: rest, st =>
    match from_str e with
    | none => (st, .error (.err "Failed to deserialize processing job"))
    | some j =>
      if j.id = job_id then ({ st with processing := zrem e st.processing }, .ok ())
      else complete_go job_id rest st

/-- Source `JobQueue::complete_job`: scan the whole processing partition and
remove the entry whose deserialized id matches. -/
def complete_job (job_id : String) (st : Store) : Store × Except Fail Unit :=
  complete_go job_id (st.processing.map Prod.fst) st

/-! ### Producer façade (`job_worker.rs`) and the sync processor
(`job_processors.rs`) -/

/-- Source `HashMap::insert` on the payload map modelled on association lists:
replace the value at the key in place, or append the binding. -/
def hm_insert (k : String) (v : JVal) : List (String × JVal) → List (String × JVal)
  | [] => [(k, v)]
  | p :: rest => if p.1 = k then (k, v) :: rest else p :: hm_insert k v rest

/-- Source `HashMap::get(k).and_then(Value::as_str)`. -/
def jget_str (k : String) (m : List (String × JVal)) : Option String :=
  (m.lookup k).bind JVal.as_str

/-- Payload built by `enqueue_email_job`: insert `to`, `subject`, `body`. -/
def email_job_payload (dest subject body : String) : List (String × JVal) :=
  hm_insert "body" (.str body)
    (hm_insert "subject" (.str subject)
      (hm_insert "to" (.str dest) []))

/-- Payload built by `enqueue_notification_job`: insert `user_id`,
`message`, `type`. -/
def notify_job_payload (user_id message ty : String) : List (String × JVal) :=
  hm_insert "type" (.str ty)
    (hm_insert "message" (.str message)
      (hm_insert "user_id" (.str user_id) []))

/-- Payload built by `enqueue_sync_job`: insert `sync_type`, then extend
with the caller-supplied data map. -/
def sync_job_payload (sync_ty : String) (data : List (String × JVal)) :
    List (String × JVal) :=
  data.foldl (fun m p => hm_insert p.1 p.2 m)
    (hm_insert "sync_type" (.str sync_ty) [])

/-- Payload built by `enqueue_blockchain_tx_job`: insert `from_address`,
`to_address`, `amount`, and `network` when given. -/
def blockchain_tx_job_payload (from_a to_a amount : String)
    (net : Option String) : List (String × JVal) :=
  let base :=
    hm_insert "amount" (.str amount)
      (hm_insert "to_address" (.str to_a)
        (hm_insert "from_address" (.str from_a) []))
  match net with
  | some n => hm_insert "network" (.str n) base
  | none => base

/-- Source `JobPayload::new`: fresh id, no retries, created now, no schedule.
The UUID is a parameter (the source draws a fresh random one). -/
def JobPayload.new (fresh_id : String) (ty : JobType)
    (payload : List (String × JVal)) (now : Int) : JobPayload :=
  { id := fresh_id, job_type := ty, payload := payload, retries := none,
    created_at := now, scheduled_at := none }

/-- Source `JobWorker::enqueue_job` as called by the typed producer helpers: no
validation of any kind is performed; the job is built and enqueued
unconditionally. -/
def enqueue_job (fresh_id : String) (ty : JobType)
    (payload : List (String × JVal)) (now : Int) (st : Store) : Store :=
  enqueue now (JobPayload.new fresh_id ty payload now) st

/-- Source `enqueue_sync_job` from `job_worker.rs`: build the sync payload and
enqueue it; the helper has no error path of its own. -/
def enqueue_sync_job (fresh_id : String) (sync_ty : String)
    (data : List (String × JVal)) (now : Int) (st : Store) : Store :=
  enqueue_job fresh_id .sync (sync_job_payload sync_ty data) now st

/-- Whether `SyncProcessor::process`/`perform_sync` accepts a payload as
well-formed: `sync_type` must be a string; `user_data` additionally needs
a `user_id` string in the remaining data; `analytics` and `backup` need
nothing more; any other value is rejected (`Unknown sync type`). -/
def sync_process_ok (payload : List (String × JVal)) : Bool :=
  match jget_str "sync_type" payload with
  | none => false
  | some sync_ty =>
    let data := payload.filter (fun p => decide (p.1 ≠ "sync_type"))
    if sync_ty = "user_data" then (jget_str "user_id" data).isSome
    else if sync_ty = "analytics" then true
    else if sync_ty = "backup" then true
    else false

/-! ### Sorted-set lemmas -/

theorem zrem_eq_filter (e : StoredEntry) (l : ZSet) :
    zrem e l = l.filter (fun p => decide (p.1 ≠ e)) := rfl

theorem mem_zrem_iff {e : StoredEntry} {l : ZSet} {p : StoredEntry × Int} :
    p ∈ zrem e l ↔ p ∈ l ∧ p.1 ≠ e := by
  simp [zrem, List.mem_filter]

theorem not_mem_zrem (e : StoredEntry) (s : Int) (l : ZSet) :
    (e, s) ∉ zrem e l := by
  simp [mem_zrem_iff]

theorem mem_zinsert_self (e : StoredEntry) (s : Int) (l : ZSet) :
    (e, s) ∈ zinsert e s l := by
  induction l with
  | nil => simp [zinsert]
  | cons p rest ih =>
    by_cases h : s < p.2 <;> simp [zinsert, h, ih]

theorem mem_zinsert_of_mem {l : ZSet} {q : StoredEntry × Int}
    (e : StoredEntry) (s : Int) (hq : q ∈ l) : q ∈ zinsert e s l := by
  induction l with
  | nil => cases hq
  | cons p rest ih =>
    by_cases h : s < p.2
    · simp [zinsert, h]
      rcases List.mem_cons.mp hq with h' | h'
      · exact Or.inr (Or.inl h')
      · exact Or.inr (Or.inr h')
    · rcases List.mem_cons.mp hq with h' | h'
      · simp [zinsert, h, h']
      · simp [zinsert, h]
        exact Or.inr (ih h')

theorem mem_zinsert_iff {l : ZSet} {e : StoredEntry} {s : Int}
    {q : StoredEntry × Int} : q ∈ zinsert e s l ↔ q = (e, s) ∨ q ∈ l := by
  constructor
  · intro hq
    induction l with
    | nil => simpa [zinsert] using hq
    | cons p rest ih =>
      by_cases h : s < p.2
      · simpa [zinsert, h, List.mem_cons] using hq
      · rcases List.mem_cons.mp (by simpa [zinsert, h] using hq) with h' | h'
        · exact Or.inr (by simp [h'])
        · rcases ih h' with h'' | h''
          · exact Or.inl h''
          · exact Or.inr (List.mem_cons.mpr (Or.inr h''))
  · intro hq
    rcases hq with rfl | hq
    · exact mem_zinsert_self e s l
    · exact mem_zinsert_of_mem e s hq

theorem mem_zadd_self (e : StoredEntry) (s : Int) (l : ZSet) :
    (e, s) ∈ zadd e s l :=
  mem_zinsert_self e s (zrem e l)

theorem mem_zadd_iff {l : ZSet} {e : StoredEntry} {s : Int}
    {q : StoredEntry × Int} :
    q ∈ zadd e s l ↔ q = (e, s) ∨ (q ∈ l ∧ q.1 ≠ e) := by
  unfold zadd
  rw [mem_zinsert_iff, mem_zrem_iff]

theorem zadd_key_score {l : ZSet} {e : StoredEntry} {s s' : Int}
    (h : (e, s') ∈ zadd e s l) : s' = s := by
  rcases mem_zadd_iff.mp h with h' | h'
  · exact congrArg Prod.snd h'
  · exact absurd rfl h'.2

theorem mem_zadd_of_mem_of_ne {l : ZSet} {e e' : StoredEntry} {s s' : Int}
    (h : (e, s) ∈ l) (hne : e ≠ e') : (e, s) ∈ zadd e' s' l :=
  mem_zinsert_of_mem e' s' (mem_zrem_iff.mpr ⟨h, hne⟩)

theorem mem_of_mem_zrangebyscore {b : Int} {l : ZSet} {e : StoredEntry}
    (h : e ∈ zrangebyscore_le b l) : ∃ s, (e, s) ∈ l ∧ s ≤ b := by
  unfold zrangebyscore_le at h
  rcases List.mem_map.mp h with ⟨p, hp, rfl⟩
  rcases List.mem_filter.mp hp with ⟨hl, hle⟩
  exact ⟨p.2, hl, of_decide_eq_true hle⟩

/-! ### Concrete fixtures used by the claim theorems -/

/-- A plain email job with a two-key payload. -/
def jA : JobPayload :=
  { id := "job-a", job_type := .email,
    payload := [("a", .str "1"), ("b", .str "2")],
    retries := none, created_at := 0, scheduled_at := none }

/-- The same job as `jA` after a round trip through a rebuilt `HashMap`
whose iteration order happens to be reversed. -/
def jA_re : JobPayload := { jA with payload := jA.payload.reverse }

/-- A minimal job with an empty payload. -/
def jB : JobPayload :=
  { id := "job-b", job_type := .email, payload := [],
    retries := none, created_at := 0, scheduled_at := none }

/-- A job scheduled 500 ms into the future. -/
def jFuture : JobPayload := { jB with id := "job-f", scheduled_at := some 500 }

/-- A store whose main queue holds exactly the serialized `jA`, ready at
score 0. -/
def stA : Store := ⟨[(serialize jA, 0)], [], [], []⟩

/-- A store whose main queue holds exactly the serialized `jB`, ready at
score 0. -/
def stRace : Store := ⟨[(serialize jB, 0)], [], [], []⟩

/-- A store with one corrupt (non-JSON) string in each scored partition. -/
def stCorrupt : Store :=
  ⟨[(.corrupt "xx", 0)], [(.corrupt "xx", 0)], [(.corrupt "xx", 0)], []⟩

/-- The default configuration with `backoff_multiplier = 2.5` (a value
exactly representable in `f64`). -/
def cfg_m25 : QueueConfig := { QueueConfig.default with backoff_multiplier := Rat.divInt 5 2 }

/-- The default configuration with `dead_letter_max_size = 0`. -/
def cfg_dl0 : QueueConfig := { QueueConfig.default with dead_letter_max_size := 0 }

/-- Modelled from the spec, for comparison only: `backoff(n) =
min(base × multiplier^n, max_backoff)` over exact numbers, in ticks. -/
def backoff_formula_spec (base m : ℚ) (n : Nat) (max_b : ℚ) : ℚ :=
  min (base * m ^ n) max_b

/-! ### C1 -/

/-- C1: the serialized-form round trip fails on the code.  `dequeue`
stores the original byte string in `processing` but hands the worker a
job whose payload `HashMap` iterates in an arbitrary order; `retry_job`
re-serializes that in-memory job to compute the `ZREM` value, so with a
two-key payload and a reversed iteration order the removal string differs
byte-wise from the stored one and the `ZREM` removes nothing: the entry
dequeue inserted stays in `processing` while the retry copy is also added
to `retry`, and the call still reports success. -/
theorem retry_removal_roundtrip_bug :
    jA_re.payload.Perm jA.payload ∧
    serialize jA_re ≠ serialize jA ∧
    (dequeue QueueConfig.default List.reverse 1000 stA).2 = .ok (some jA_re) ∧
    (dequeue QueueConfig.default List.reverse 1000 stA).1.processing =
      [(serialize jA, timestamp (1000 + QueueConfig.default.visibility_timeout))] ∧
    (retry_job QueueConfig.default 1000 jA_re "boom"
        (dequeue QueueConfig.default List.reverse 1000 stA).1).1.processing =
      [(serialize jA, timestamp (1000 + QueueConfig.default.visibility_timeout))] ∧
    (retry_job QueueConfig.default 1000 jA_re "boom"
        (dequeue QueueConfig.default List.reverse 1000 stA).1).2 = .ok () := by
  decide

/-! ### C2 -/

/-- The store after one caller's three `dequeue` round trips on `stRace`. -/
def raceAfterA : Store :=
  dequeue_insert QueueConfig.default 1000 (serialize jB)
    (dequeue_remove (serialize jB) stRace)

/-- The final store after a second caller, whose read round trip happened
before the first caller's `ZREM`, finishes its own remove and insert. -/
def raceFinal : Store :=
  dequeue_insert QueueConfig.default 1000 (serialize jB)
    (dequeue_remove (serialize jB) raceAfterA)

/-- C2: `dequeue` is three separate round trips with no compare-and-remove
guard (the `ZREM` count is ignored), so in the interleaving A-read,
B-read, A-remove, A-insert, B-remove, B-insert both callers read the same
entry from the still-unchanged store, both complete all their steps
without any failure, and both return the same deserialized job. -/
theorem dequeue_double_return_bug :
    dequeue_read 1000 stRace = some (serialize jB) ∧
    from_str (serialize jB) = some jB ∧
    raceFinal.main = [] ∧
    raceFinal.processing =
      [(serialize jB, timestamp (1000 + QueueConfig.default.visibility_timeout))] := by
  decide

/-! ### C4 -/

/-- C4 counterexample: with `backoff_multiplier = 2.5` and attempt 1 the
code yields 2 seconds (the `as u32` cast truncates `2.5` to `2` before
scaling), while the spec formula `min(1s × 2.5^1, 3600s)` yields 2.5
seconds. -/
theorem backoff_claim_counterexample :
    ((calculate_backoff_delay cfg_m25 1 : Int) : ℚ) ≠
      backoff_formula_spec 1000 cfg_m25.backoff_multiplier 1 (cfg_m25.max_backoff : ℚ) := by
  have h1 : calculate_backoff_delay cfg_m25 1 = 2000 := by decide
  have hm : cfg_m25.backoff_multiplier = (5 : ℚ) / 2 := by
    show Rat.divInt 5 2 = (5 : ℚ) / 2
    rw [Rat.divInt_eq_div]
    norm_num
  have h2 : backoff_formula_spec 1000 cfg_m25.backoff_multiplier 1
      (cfg_m25.max_backoff : ℚ) = 2500 := by
    unfold backoff_formula_spec
    rw [hm, pow_one]
    have hc : ((cfg_m25.max_backoff : Int) : ℚ) = 3600000 := by
      norm_num [cfg_m25, QueueConfig.default]
    rw [hc]
    norm_num [min_def]
  rw [h1, h2]
  norm_num

/-- C4 amended: whenever `multiplier^n` is a natural number below `2^32`
(in particular for the default multiplier 2.0 and every attempt that
matters), the computed delay equals the spec formula
`min(1s × multiplier^n, max_backoff)`; the truncating cast is the
identity there. -/
theorem backoff_truncated_formula (cfg : QueueConfig) (n k : Nat)
    (hk : cfg.backoff_multiplier ^ n = (k : ℚ))
    (hlt : (k : Int) ≤ 2 ^ 32 - 1) :
    calculate_backoff_delay cfg n = min (1000 * (k : Int)) cfg.max_backoff ∧
    ((calculate_backoff_delay cfg n : Int) : ℚ) =
      backoff_formula_spec 1000 cfg.backoff_multiplier n (cfg.max_backoff : ℚ) := by
  have hbridge : Rat.floor (cfg.backoff_multiplier ^ n) = ⌊cfg.backoff_multiplier ^ n⌋ := rfl
  have hfloor : Rat.floor (cfg.backoff_multiplier ^ n) = (k : Int) := by
    rw [hbridge, hk, Int.floor_natCast]
  have hsat : u32_sat (cfg.backoff_multiplier ^ n) = (k : Int) := by
    unfold u32_sat
    rw [hfloor, min_eq_right hlt, max_eq_right (Int.natCast_nonneg k)]
  have hdelay : calculate_backoff_delay cfg n = min (1000 * (k : Int)) cfg.max_backoff := by
    show min (1000 * u32_sat (cfg.backoff_multiplier ^ n)) cfg.max_backoff =
      min (1000 * (k : Int)) cfg.max_backoff
    rw [hsat]
  refine ⟨hdelay, ?_⟩
  rw [hdelay]
  unfold backoff_formula_spec
  rw [hk]
  push_cast
  rfl

/-- Witness for `backoff_truncated_formula` at the default configuration
(multiplier 2.0) and attempt 3: the delay is 8 seconds. -/
theorem backoff_truncated_formula_witness :
    QueueConfig.default.backoff_multiplier ^ 3 = ((8 : Nat) : ℚ) ∧
    calculate_backoff_delay QueueConfig.default 3 =
      min (1000 * ((8 : Nat) : Int)) QueueConfig.default.max_backoff :=
  ⟨by decide,
   (backoff_truncated_formula QueueConfig.default 3 8 (by decide) (by decide)).1⟩

/-! ### C5 -/

/-- C5: every reading operation aborts with an error on a corrupt entry
and leaves the store — including the corrupt entry — exactly as it was,
instead of removing the entry; the same entry therefore blocks every
subsequent call. -/
theorem corrupt_entry_left_in_place :
    (dequeue QueueConfig.default id 5000 stCorrupt).1 = stCorrupt ∧
    (dequeue QueueConfig.default id 5000 stCorrupt).2 =
      .error (.err "Failed to deserialize job") ∧
    (process_retry_queue 5000 stCorrupt).1 = stCorrupt ∧
    (process_retry_queue 5000 stCorrupt).2 =
      .error (.err "Failed to deserialize retry job") ∧
    (reclaim_stalled_jobs 5000 stCorrupt).1 = stCorrupt ∧
    (reclaim_stalled_jobs 5000 stCorrupt).2 =
      .error (.err "Failed to deserialize stalled job") ∧
    (complete_job "job-b" stCorrupt).1 = stCorrupt ∧
    (complete_job "job-b" stCorrupt).2 =
      .error (.err "Failed to deserialize processing job") := by
  decide

/-! ### C6 -/

/-- C6 counterexample: with `dead_letter_max_size = 0` the dead-letter
partition starts within the cap (length 0), yet `send_to_dead_letter`
leaves it over the cap: the guard `LPOP`s the empty list (a no-op) and
the `RPUSH` still appends, giving length 1 > 0. -/
theorem dead_letter_cap_counterexample :
    Store.empty.dead_letter.length ≤ cfg_dl0.dead_letter_max_size ∧
    ¬ (send_to_dead_letter cfg_dl0 0 jB "boom" 3 Store.empty).1.dead_letter.length ≤
        cfg_dl0.dead_letter_max_size := by
  decide

/-! ### C8 -/

/-- C8 counterexample: scores are whole seconds, so a job enqueued at
tick 0 with `scheduled_at` 500 ms in the future lands in `main` with
score 0 and `dequeue` at tick 100 — well before the scheduled time —
already returns it. -/
theorem scheduled_claim_counterexample :
    (100 : Int) < 500 ∧ jFuture.scheduled_at = some 500 ∧
    (dequeue QueueConfig.default id 100 (enqueue 0 jFuture Store.empty)).2 =
      .ok (some jFuture) := by
  decide

/-! ### C9 -/

/-- C9: `enqueue_sync_job` performs no validation: called with the
unknown sync type "bogus" it happily enqueues the job (no producer-side
error path exists), yet `SyncProcessor::perform_sync` rejects that very
payload (`Unknown sync type`). -/
theorem sync_helper_enqueues_malformed :
    (serialize (JobPayload.new "id-1" .sync (sync_job_payload "bogus" []) 0),
        timestamp 0) ∈ (enqueue_sync_job "id-1" "bogus" [] 0 Store.empty).main ∧
    sync_process_ok (sync_job_payload "bogus" []) = false := by
  decide

/-! ### Frame lemmas: which partitions each operation leaves unchanged -/

theorem process_retry_go_dead (es : List StoredEntry) :
    ∀ st : Store, (process_retry_go es st).1.dead_letter = st.dead_letter := by
  induction es with
  | nil => intro st; rfl
  | cons e rest ih =>
    intro st
    cases e with
    | corrupt s => rfl
    | job j =>
      cases hsch : j.scheduled_at with
      | none => simp [process_retry_go, from_str, hsch]
      | some t => simp [process_retry_go, from_str, hsch, ih]

theorem process_retry_go_processing (es : List StoredEntry) :
    ∀ st : Store, (process_retry_go es st).1.processing = st.processing := by
  induction es with
  | nil => intro st; rfl
  | cons e rest ih =>
    intro st
    cases e with
    | corrupt s => rfl
    | job j =>
      cases hsch : j.scheduled_at with
      | none => simp [process_retry_go, from_str, hsch]
      | some t => simp [process_retry_go, from_str, hsch, ih]

theorem process_retry_go_retry_sub (es : List StoredEntry) :
    ∀ (st : Store) (p : StoredEntry × Int),
      p ∈ (process_retry_go es st).1.retry → p ∈ st.retry := by
  induction es with
  | nil => intro st p hp; exact hp
  | cons e rest ih =>
    intro st p hp
    cases e with
    | corrupt s => exact hp
    | job j =>
      cases hsch : j.scheduled_at with
      | none =>
        simp only [process_retry_go, from_str, hsch] at hp
        exact (mem_zrem_iff.mp hp).1
      | some t =>
        simp only [process_retry_go, from_str, hsch] at hp
        exact (mem_zrem_iff.mp (ih _ p hp)).1

theorem reclaim_go_dead (now : Int) (es : List StoredEntry) :
    ∀ (st : Store) (c : Nat),
      (reclaim_go now es st c).1.dead_letter = st.dead_letter := by
  induction es with
  | nil => intro st c; rfl
  | cons e rest ih =>
    intro st c
    cases e with
    | corrupt s => rfl
    | job j => simp [reclaim_go, from_str, ih]

theorem reclaim_go_retry (now : Int) (es : List StoredEntry) :
    ∀ (st : Store) (c : Nat), (reclaim_go now es st c).1.retry = st.retry := by
  induction es with
  | nil => intro st c; rfl
  | cons e rest ih =>
    intro st c
    cases e with
    | corrupt s => rfl
    | job j => simp [reclaim_go, from_str, ih]

theorem complete_go_dead (jid : String) (es : List StoredEntry) :
    ∀ st : Store, (complete_go jid es st).1.dead_letter = st.dead_letter := by
  induction es with
  | nil => intro st; rfl
  | cons e rest ih =>
    intro st
    cases e with
    | corrupt s => rfl
    | job j =>
      by_cases hid : j.id = jid
      · simp [complete_go, from_str, hid]
      · simp [complete_go, from_str, hid, ih]

theorem complete_go_retry (jid : String) (es : List StoredEntry) :
    ∀ st : Store, (complete_go jid es st).1.retry = st.retry := by
  induction es with
  | nil => intro st; rfl
  | cons e rest ih =>
    intro st
    cases e with
    | corrupt s => rfl
    | job j =>
      by_cases hid : j.id = jid
      · simp [complete_go, from_str, hid]
      · simp [complete_go, from_str, hid, ih]

theorem dequeue_dead (cfg : QueueConfig)
    (reorder : List (String × JVal) → List (String × JVal)) (now : Int) (st : Store) :
    (dequeue cfg reorder now st).1.dead_letter = st.dead_letter := by
  unfold dequeue
  cases dequeue_read now st with
  | none => rfl
  | some e =>
    cases e with
    | corrupt s => rfl
    | job j => rfl

theorem dequeue_retry (cfg : QueueConfig)
    (reorder : List (String × JVal) → List (String × JVal)) (now : Int) (st : Store) :
    (dequeue cfg reorder now st).1.retry = st.retry := by
  unfold dequeue
  cases dequeue_read now st with
  | none => rfl
  | some e =>
    cases e with
    | corrupt s => rfl
    | job j => rfl

/-! ### C3 -/

/-- The job copy `retry_job` builds for the retry partition: the original
job with `retries = next_attempts` and `scheduled_at = now +
backoff(next_attempts)`. -/
def retry_copy (cfg : QueueConfig) (now : Int) (job : JobPayload) : JobPayload :=
  { job with
      retries := some (job.retries.getD 0 + 1),
      scheduled_at := some (now + calculate_backoff_delay cfg (job.retries.getD 0 + 1)) }

/-- C3: `retry_job` computes `next = retries.unwrap_or(0) + 1`; below
`max_retries` it inserts the job copy carrying `retries = next` and
`scheduled_at = now + backoff(next)` into the retry partition with score
`scheduled_at` (whole seconds) and removes the original serialized form
from processing; at or above `max_retries` it delegates to
`send_to_dead_letter` with `total_attempts = next`, which appends the
record and removes the original serialized form from processing. -/
theorem retry_routing (cfg : QueueConfig) (now : Int) (job : JobPayload)
    (error : String) (st : Store) :
    (job.retries.getD 0 + 1 < cfg.max_retries →
      retry_job cfg now job error st =
        ({ st with
            retry := zadd (serialize (retry_copy cfg now job))
              (timestamp (now + calculate_backoff_delay cfg (job.retries.getD 0 + 1)))
              st.retry,
            processing := zrem (serialize job) st.processing }, .ok ()) ∧
      (∀ s, (serialize job, s) ∉ (retry_job cfg now job error st).1.processing)) ∧
    (cfg.max_retries ≤ job.retries.getD 0 + 1 →
      retry_job cfg now job error st =
        send_to_dead_letter cfg now job error (job.retries.getD 0 + 1) st ∧
      (retry_job cfg now job error st).1.dead_letter.getLast? =
        some { original_job := job, error := error, failed_at := now,
               total_attempts := job.retries.getD 0 + 1 } ∧
      (∀ s, (serialize job, s) ∉ (retry_job cfg now job error st).1.processing)) := by
  constructor
  · intro h
    have hcond : ¬ cfg.max_retries ≤ job.retries.getD 0 + 1 := not_le.mpr h
    have h1 : retry_job cfg now job error st =
        ({ st with
            retry := zadd (serialize (retry_copy cfg now job))
              (timestamp (now + calculate_backoff_delay cfg (job.retries.getD 0 + 1)))
              st.retry,
            processing := zrem (serialize job) st.processing }, .ok ()) := by
      simp only [retry_job, retry_copy, if_neg hcond]
    refine ⟨h1, ?_⟩
    intro s
    rw [h1]
    exact not_mem_zrem (serialize job) s st.processing
  · intro h
    have h1 : retry_job cfg now job error st =
        send_to_dead_letter cfg now job error (job.retries.getD 0 + 1) st := by
      simp only [retry_job, if_pos h]
    refine ⟨h1, ?_, ?_⟩
    · rw [h1]
      unfold send_to_dead_letter
      simp
    · intro s
      rw [h1]
      unfold send_to_dead_letter
      exact not_mem_zrem (serialize job) s st.processing

/-- A job that has already failed five times. -/
def jR5 : JobPayload := { jB with id := "job-r5", retries := some 5 }

/-- Witness for `retry_routing`: under the default configuration a fresh
job goes to the retry partition, a job with five recorded retries goes to
the dead letter with `total_attempts = 6`. -/
theorem retry_routing_witness :
    retry_job QueueConfig.default 0 jB "e" Store.empty =
      ({ Store.empty with
          retry := zadd (serialize (retry_copy QueueConfig.default 0 jB))
            (timestamp (0 + calculate_backoff_delay QueueConfig.default 1))
            Store.empty.retry,
          processing := zrem (serialize jB) Store.empty.processing }, .ok ()) ∧
    (retry_job QueueConfig.default 0 jR5 "e" Store.empty).1.dead_letter.getLast? =
      some { original_job := jR5, error := "e", failed_at := 0, total_attempts := 6 } :=
  ⟨((retry_routing QueueConfig.default 0 jB "e" Store.empty).1 (by decide)).1,
   (((retry_routing QueueConfig.default 0 jR5 "e" Store.empty).2 (by decide)).2).1⟩

/-- C6 amended: provided `dead_letter_max_size ≥ 1` (all shipped
configurations; the counterexample shows the cap is broken when it is 0),
every operation preserves `dead-letter length ≤ dead_letter_max_size`:
`send_to_dead_letter` at capacity drops exactly the oldest record before
appending the new one, `retry_job` only touches the dead letter through
`send_to_dead_letter`, and every other operation leaves the dead-letter
list unchanged. -/
theorem dead_letter_cap_invariant (cfg : QueueConfig) (now : Int) (job : JobPayload)
    (error : String) (jid : String) (k : Nat)
    (reorder : List (String × JVal) → List (String × JVal)) (st : Store)
    (hpos : 1 ≤ cfg.dead_letter_max_size)
    (hlen : st.dead_letter.length ≤ cfg.dead_letter_max_size) :
    (send_to_dead_letter cfg now job error k st).1.dead_letter.length ≤
        cfg.dead_letter_max_size ∧
    (cfg.dead_letter_max_size ≤ st.dead_letter.length →
      (send_to_dead_letter cfg now job error k st).1.dead_letter =
        st.dead_letter.tail ++
          [{ original_job := job, error := error, failed_at := now,
             total_attempts := k }]) ∧
    (retry_job cfg now job error st).1.dead_letter.length ≤
        cfg.dead_letter_max_size ∧
    (enqueue now job st).dead_letter = st.dead_letter ∧
    (dequeue cfg reorder now st).1.dead_letter = st.dead_letter ∧
    (process_retry_queue now st).1.dead_letter = st.dead_letter ∧
    (reclaim_stalled_jobs now st).1.dead_letter = st.dead_letter ∧
    (complete_job jid st).1.dead_letter = st.dead_letter := by
  have hsend : ∀ k' : Nat,
      (send_to_dead_letter cfg now job error k' st).1.dead_letter.length ≤
        cfg.dead_letter_max_size := by
    intro k'
    by_cases hcap : cfg.dead_letter_max_size ≤ st.dead_letter.length
    · simp only [send_to_dead_letter, if_pos hcap, List.length_append,
        List.length_tail, List.length_singleton]
      omega
    · simp only [send_to_dead_letter, if_neg hcap, List.length_append,
        List.length_singleton]
      omega
  refine ⟨hsend k, ?_, ?_, rfl, dequeue_dead cfg reorder now st,
    process_retry_go_dead _ st, reclaim_go_dead now _ st 0,
    complete_go_dead jid _ st⟩
  · intro hcap
    simp only [send_to_dead_letter, if_pos hcap]
  · by_cases hretry : cfg.max_retries ≤ job.retries.getD 0 + 1
    · simp only [retry_job, if_pos hretry]
      exact hsend _
    · simp only [retry_job, if_neg hretry]
      exact hlen

/-- The default configuration with a dead-letter capacity of one. -/
def cfg_dl1 : QueueConfig := { QueueConfig.default with dead_letter_max_size := 1 }

/-- A pre-existing dead-letter record. -/
def dlRec0 : DeadLetterJob :=
  { original_job := jB, error := "old", failed_at := 0, total_attempts := 3 }

/-- A store whose dead-letter list is at the capacity of `cfg_dl1`. -/
def stDL1 : Store := { Store.empty with dead_letter := [dlRec0] }

/-- Witness for `dead_letter_cap_invariant` at capacity 1: the full list
evicts its only (oldest) record and stays at length 1. -/
theorem dead_letter_cap_invariant_witness :
    (send_to_dead_letter cfg_dl1 7 jR5 "boom" 6 stDL1).1.dead_letter =
      stDL1.dead_letter.tail ++
        [{ original_job := jR5, error := "boom", failed_at := 7,
           total_attempts := 6 }] ∧
    (send_to_dead_letter cfg_dl1 7 jR5 "boom" 6 stDL1).1.dead_letter.length ≤
      cfg_dl1.dead_letter_max_size :=
  ⟨(dead_letter_cap_invariant cfg_dl1 7 jR5 "boom" "jid" 6 id stDL1
      (by decide) (by decide)).2.1 (by decide),
   (dead_letter_cap_invariant cfg_dl1 7 jR5 "boom" "jid" 6 id stDL1
      (by decide) (by decide)).1⟩

/-! ### C7 -/

theorem reclaim_go_spec (now : Int) (es : List StoredEntry) :
    ∀ (st : Store) (c : Nat), (∀ e ∈ es, ∃ j, e = StoredEntry.job j) →
      reclaim_go now es st c =
        ({ st with
            processing := es.foldl (fun acc e => zrem e acc) st.processing,
            main := es.foldl (fun acc e => zadd e (reclaim_score now e) acc) st.main },
         .ok (c + es.length)) := by
  induction es with
  | nil => intro st c _; rfl
  | cons e rest ih =>
    intro st c h
    obtain ⟨j, rfl⟩ := h e (List.mem_cons_self e rest)
    simp only [reclaim_go, from_str]
    rw [ih _ _ (fun x hx => h x (List.mem_cons_of_mem _ hx))]
    simp only [List.foldl_cons, List.length_cons]
    have hc : c + 1 + rest.length = c + (rest.length + 1) := by omega
    rw [hc]

theorem foldl_zrem_eq_filter (es : List StoredEntry) :
    ∀ l : ZSet, es.foldl (fun acc e => zrem e acc) l =
      l.filter (fun p => decide (p.1 ∉ es)) := by
  induction es with
  | nil =>
    intro l
    simp
  | cons e rest ih =>
    intro l
    rw [List.foldl_cons, ih (zrem e l)]
    unfold zrem
    rw [List.filter_filter]
    apply List.filter_congr
    intro p _
    by_cases h1 : p.1 = e <;> by_cases h2 : p.1 ∈ rest <;> simp [h1, h2]

theorem key_eq_of_nodup (l : ZSet) (hnd : (l.map Prod.fst).Nodup) :
    ∀ p ∈ l, ∀ q ∈ l, p.1 = q.1 → p = q := by
  induction l with
  | nil => intro p hp; cases hp
  | cons a rest ih =>
    rw [List.map_cons, List.nodup_cons] at hnd
    intro p hp q hq heq
    rcases List.mem_cons.mp hp with rfl | hp'
    · rcases List.mem_cons.mp hq with rfl | hq'
      · rfl
      · have hmem : p.1 ∈ rest.map Prod.fst := by
          rw [heq]
          exact List.mem_map_of_mem Prod.fst hq'
        exact absurd hmem hnd.1
    · rcases List.mem_cons.mp hq with rfl | hq'
      · have hmem : q.1 ∈ rest.map Prod.fst := by
          rw [← heq]
          exact List.mem_map_of_mem Prod.fst hp'
        exact absurd hmem hnd.1
      · exact ih hnd.2 p hp' q hq' heq

theorem zrangebyscore_key_mem {b : Int} {l : ZSet} {p : StoredEntry × Int}
    (hnd : (l.map Prod.fst).Nodup) (hp : p ∈ l) :
    p.1 ∈ zrangebyscore_le b l ↔ p.2 ≤ b := by
  constructor
  · intro h
    rcases List.mem_map.mp h with ⟨q, hq, hkey⟩
    rcases List.mem_filter.mp hq with ⟨hql, hqle⟩
    have hpq : p = q := key_eq_of_nodup l hnd p hp q hql hkey.symm
    rw [hpq]
    exact of_decide_eq_true hqle
  · intro h
    exact List.mem_map_of_mem Prod.fst (List.mem_filter.mpr ⟨hp, decide_eq_true h⟩)

theorem mem_foldl_zadd_of_not_mem (σ : StoredEntry → Int) (es : List StoredEntry) :
    ∀ (m : ZSet) (e : StoredEntry) (s : Int), e ∉ es → (e, s) ∈ m →
      (e, s) ∈ es.foldl (fun acc x => zadd x (σ x) acc) m := by
  induction es with
  | nil => intro m e s _ hm; exact hm
  | cons a rest ih =>
    intro m e s hne hm
    rw [List.foldl_cons]
    have hna : e ≠ a := fun hc => hne (hc ▸ List.mem_cons_self a rest)
    exact ih _ e s (fun hc => hne (List.mem_cons_of_mem _ hc))
      (mem_zadd_of_mem_of_ne hm hna)

theorem mem_foldl_zadd (σ : StoredEntry → Int) (es : List StoredEntry) :
    ∀ (m : ZSet) (e : StoredEntry), es.Nodup → e ∈ es →
      (e, σ e) ∈ es.foldl (fun acc x => zadd x (σ x) acc) m := by
  induction es with
  | nil => intro m e _ he; cases he
  | cons a rest ih =>
    intro m e hnd he
    rw [List.nodup_cons] at hnd
    rcases List.mem_cons.mp he with rfl | he'
    · rw [List.foldl_cons]
      exact mem_foldl_zadd_of_not_mem σ rest _ e (σ e) hnd.1
        (mem_zadd_self e (σ e) m)
    · rw [List.foldl_cons]
      exact ih _ e hnd.2 he'

/-- C7: assuming the processing members are distinct (sorted-set
semantics) and every expired-lease entry deserializes, a
`reclaim_stalled_jobs` call returns exactly the number of entries with
score at most `now` (whole seconds), leaves precisely the unexpired
entries in processing, reinserts each expired entry into main with score
`scheduled_at.unwrap_or(now).timestamp()` of its parsed job — attempts
untouched, since the moved string is the original — leaves retry and the
dead letter unchanged, and with no expired lease returns 0 with the store
exactly as it was. -/
theorem reclaim_stalled_spec (now : Int) (st : Store)
    (hnd : (st.processing.map Prod.fst).Nodup)
    (hparse : ∀ p ∈ st.processing, p.2 ≤ timestamp now →
      ∃ j, p.1 = StoredEntry.job j) :
    (reclaim_stalled_jobs now st).2 =
      .ok (st.processing.filter (fun p => decide (p.2 ≤ timestamp now))).length ∧
    (reclaim_stalled_jobs now st).1.processing =
      st.processing.filter (fun p => decide (¬ p.2 ≤ timestamp now)) ∧
    (∀ p ∈ st.processing, p.2 ≤ timestamp now → ∀ j, from_str p.1 = some j →
      (p.1, timestamp (j.scheduled_at.getD now)) ∈ (reclaim_stalled_jobs now st).1.main) ∧
    (reclaim_stalled_jobs now st).1.retry = st.retry ∧
    (reclaim_stalled_jobs now st).1.dead_letter = st.dead_letter ∧
    ((∀ p ∈ st.processing, ¬ p.2 ≤ timestamp now) →
      reclaim_stalled_jobs now st = (st, .ok 0)) := by
  have hes : ∀ e ∈ zrangebyscore_le (timestamp now) st.processing,
      ∃ j, e = StoredEntry.job j := by
    intro e he
    rcases mem_of_mem_zrangebyscore he with ⟨s, hmem, hle⟩
    exact hparse (e, s) hmem hle
  have hspec := reclaim_go_spec now (zrangebyscore_le (timestamp now) st.processing)
    st 0 hes
  have hndes : (zrangebyscore_le (timestamp now) st.processing).Nodup := by
    unfold zrangebyscore_le
    exact hnd.sublist ((List.filter_sublist st.processing).map Prod.fst)
  refine ⟨?_, ?_, ?_, ?_, ?_, ?_⟩
  · rw [reclaim_stalled_jobs, hspec]
    simp [zrangebyscore_le]
  · rw [reclaim_stalled_jobs, hspec]
    show (zrangebyscore_le (timestamp now) st.processing).foldl
        (fun acc e => zrem e acc) st.processing = _
    rw [foldl_zrem_eq_filter]
    apply List.filter_congr
    intro p hp
    have hiff := zrangebyscore_key_mem (b := timestamp now) hnd hp
    by_cases hle : p.2 ≤ timestamp now
    · simp [hiff.mpr hle, hle]
    · have hnm : p.1 ∉ zrangebyscore_le (timestamp now) st.processing :=
        fun hc => hle (hiff.mp hc)
      simp [hle, hnm]
  · intro p hp hle j hj
    rw [reclaim_stalled_jobs, hspec]
    show (p.1, timestamp (j.scheduled_at.getD now)) ∈
      (zrangebyscore_le (timestamp now) st.processing).foldl
        (fun acc e => zadd e (reclaim_score now e) acc) st.main
    have hkey : p.1 ∈ zrangebyscore_le (timestamp now) st.processing :=
      (zrangebyscore_key_mem hnd hp).mpr hle
    have hscore : reclaim_score now p.1 = timestamp (j.scheduled_at.getD now) := by
      rcases hparse p hp hle with ⟨j', hj'⟩
      rw [hj'] at hj ⊢
      cases hj
      rfl
    rw [← hscore]
    exact mem_foldl_zadd (reclaim_score now) _ st.main p.1 hndes hkey
  · rw [reclaim_stalled_jobs, hspec]
  · rw [reclaim_stalled_jobs, hspec]
  · intro hnone
    have hfil : st.processing.filter (fun p => decide (p.2 ≤ timestamp now)) = [] := by
      rw [List.filter_eq_nil_iff]
      intro p hp
      simpa using hnone p hp
    rw [reclaim_stalled_jobs]
    unfold zrangebyscore_le
    rw [hfil]
    rfl

/-- A job sitting in processing with an expired lease. -/
def jStalled : JobPayload := { jB with id := "job-s", scheduled_at := some 2000 }

/-- A store with one expired-lease entry in processing. -/
def stStalled : Store := { Store.empty with processing := [(serialize jStalled, 1)] }

/-- Witness for `reclaim_stalled_spec`: one expired entry is counted,
removed from processing, and lands in main with its scheduled-time
score. -/
theorem reclaim_stalled_spec_witness :
    (reclaim_stalled_jobs 5000 stStalled).2 =
      .ok (stStalled.processing.filter
        (fun p => decide (p.2 ≤ timestamp 5000))).length ∧
    (serialize jStalled, timestamp ((some (2000 : Int)).getD 5000)) ∈
      (reclaim_stalled_jobs 5000 stStalled).1.main :=
  ⟨(reclaim_stalled_spec 5000 stStalled (by decide)
      (fun p hp _ => by
        have hp' : p = (serialize jStalled, 1) := by
          simpa [stStalled, Store.empty] using hp
        exact ⟨jStalled, by rw [hp']; rfl⟩)).1,
   (reclaim_stalled_spec 5000 stStalled (by decide)
      (fun p hp _ => by
        have hp' : p = (serialize jStalled, 1) := by
          simpa [stStalled, Store.empty] using hp
        exact ⟨jStalled, by rw [hp']; rfl⟩)).2.2.1
     (serialize jStalled, 1) (by decide) (by decide) jStalled rfl⟩

/-! ### C8 -/

theorem head?_some_mem {α : Type} {l : List α} {a : α}
    (h : l.head? = some a) : a ∈ l := by
  cases l with
  | nil => cases h
  | cons x xs =>
    rw [List.head?_cons, Option.some.injEq] at h
    rw [← h]
    exact List.mem_cons_self x xs

/-- C8 amended: `enqueue` stores the job with score
`scheduled_at.unwrap_or(now).timestamp()`, and `dequeue` only returns a
job parsed from a main entry whose score is at most `timestamp now`; a
job whose `scheduled_at` falls in a strictly later whole second than the
dequeue time is therefore never the selected entry, and when no entry is
eligible `dequeue` returns `None` with the store untouched.  (Eligibility
is at whole-second granularity — the counterexample shows a job scheduled
later within the same second is returned early, so the original
real-time reading of the claim fails.) -/
theorem scheduled_eligibility (cfg : QueueConfig)
    (reorder : List (String × JVal) → List (String × JVal))
    (now now_e : Int) (job : JobPayload) (st : Store) :
    (serialize job, timestamp (job.scheduled_at.getD now_e)) ∈
      (enqueue now_e job st).main ∧
    (∀ j', (dequeue cfg reorder now st).2 = .ok (some j') →
      ∃ p ∈ st.main, p.2 ≤ timestamp now ∧
        ∃ jj, p.1 = serialize jj ∧ j' = { jj with payload := reorder jj.payload }) ∧
    (∀ T, job.scheduled_at = some T → timestamp now < timestamp T →
      dequeue_read now (enqueue now_e job st) ≠ some (serialize job)) ∧
    ((∀ p ∈ st.main, ¬ p.2 ≤ timestamp now) →
      dequeue cfg reorder now st = (st, .ok none)) := by
  refine ⟨mem_zadd_self _ _ _, ?_, ?_, ?_⟩
  · intro j' hj'
    unfold dequeue at hj'
    cases hread : dequeue_read now st with
    | none => rw [hread] at hj'; cases hj'
    | some e =>
      rw [hread] at hj'
      cases e with
      | corrupt s => cases hj'
      | job jj =>
        simp only [from_str] at hj'
        have hj'' : j' = { jj with payload := reorder jj.payload } := by
          cases hj'
          rfl
        have hm : StoredEntry.job jj ∈ zrangebyscore_le (timestamp now) st.main :=
          head?_some_mem hread
        rcases mem_of_mem_zrangebyscore hm with ⟨s, hmem, hle⟩
        exact ⟨(StoredEntry.job jj, s), hmem, hle, jj, rfl, hj''⟩
  · intro T hT hlt hc
    have hm : serialize job ∈
        zrangebyscore_le (timestamp now) (enqueue now_e job st).main :=
      head?_some_mem hc
    rcases mem_of_mem_zrangebyscore hm with ⟨s, hmem, hle⟩
    have hs : s = timestamp (job.scheduled_at.getD now_e) := zadd_key_score hmem
    rw [hT, Option.getD_some] at hs
    omega
  · intro hempty
    have hnil : zrangebyscore_le (timestamp now) st.main = [] := by
      unfold zrangebyscore_le
      rw [List.filter_eq_nil_iff.mpr (fun p hp => by simpa using hempty p hp)]
      rfl
    unfold dequeue dequeue_read
    rw [hnil]
    rfl

/-- A job scheduled five whole seconds into the future. -/
def jF2 : JobPayload := { jB with id := "job-f2", scheduled_at := some 5000 }

/-- Witness for `scheduled_eligibility`: the future job is stored with
its scheduled score, is not selected by a dequeue at time 0, and a
dequeue on an empty main queue returns `None`. -/
theorem scheduled_eligibility_witness :
    (serialize jF2, timestamp (jF2.scheduled_at.getD 0)) ∈
      (enqueue 0 jF2 Store.empty).main ∧
    dequeue_read 0 (enqueue 0 jF2 Store.empty) ≠ some (serialize jF2) ∧
    dequeue QueueConfig.default id 0 Store.empty = (Store.empty, .ok none) :=
  ⟨(scheduled_eligibility QueueConfig.default id 0 0 jF2 Store.empty).1,
   (scheduled_eligibility QueueConfig.default id 0 0 jF2 Store.empty).2.2.1
     5000 rfl (by decide),
   (scheduled_eligibility QueueConfig.default id 0 0 jF2 Store.empty).2.2.2
     (fun p hp => absurd hp (List.not_mem_nil p))⟩

/-! ### C10 -/

/-- Whether a stored retry entry parses to a job with a present
`scheduled_at` (the property the two `unwrap`s rely on). -/
def retry_entry_ok : StoredEntry → Bool
  | .job j => j.scheduled_at.isSome
  | .corrupt _ => false

/-- The retry-partition invariant: every stored entry deserializes to a
job whose `scheduled_at` is present. -/
def RetryInv (st : Store) : Prop := ∀ p ∈ st.retry, retry_entry_ok p.1 = true

theorem process_retry_go_ok (es : List StoredEntry)
    (hes : ∀ e ∈ es, retry_entry_ok e = true) :
    ∀ st : Store, (process_retry_go es st).2 = .ok () := by
  induction es with
  | nil => intro st; rfl
  | cons e rest ih =>
    intro st
    have he := hes e (List.mem_cons_self e rest)
    cases e with
    | corrupt s => cases he
    | job j =>
      cases hsch : j.scheduled_at with
      | none => rw [retry_entry_ok, hsch] at he; cases he
      | some t =>
        simp only [process_retry_go, from_str, hsch]
        exact ih (fun x hx => hes x (List.mem_cons_of_mem _ hx)) _

/-- C10: jobs inserted into the retry partition by `retry_job` always
carry `scheduled_at = Some(now + backoff)`, every operation preserves the
invariant that retry entries deserialize to jobs with a present
`scheduled_at` (only `retry_job` ever inserts there), and under that
invariant neither `scheduled_at.unwrap()` can panic: `retry_job` always
returns `Ok` and `process_retry_queue` runs to `Ok` on the whole due
list. -/
theorem retry_scheduled_at_invariant (cfg : QueueConfig) (now : Int)
    (job : JobPayload) (error : String) (jid : String) (k : Nat)
    (reorder : List (String × JVal) → List (String × JVal))
    (st : Store) (hinv : RetryInv st) :
    (retry_job cfg now job error st).2 = .ok () ∧
    RetryInv (retry_job cfg now job error st).1 ∧
    (process_retry_queue now st).2 = .ok () ∧
    RetryInv (process_retry_queue now st).1 ∧
    RetryInv (enqueue now job st) ∧
    RetryInv (dequeue cfg reorder now st).1 ∧
    RetryInv (send_to_dead_letter cfg now job error k st).1 ∧
    RetryInv (reclaim_stalled_jobs now st).1 ∧
    RetryInv (complete_job jid st).1 := by
  refine ⟨?_, ?_, ?_, ?_, hinv, ?_, hinv, ?_, ?_⟩
  · by_cases h : cfg.max_retries ≤ job.retries.getD 0 + 1
    · simp only [retry_job, if_pos h]
      rfl
    · simp only [retry_job, if_neg h]
  · by_cases h : cfg.max_retries ≤ job.retries.getD 0 + 1
    · simp only [retry_job, if_pos h]
      exact hinv
    · simp only [retry_job, if_neg h]
      intro p hp
      rcases mem_zadd_iff.mp hp with rfl | ⟨hmem, _⟩
      · rfl
      · exact hinv p hmem
  · apply process_retry_go_ok
    intro e he
    rcases mem_of_mem_zrangebyscore he with ⟨s, hmem, _⟩
    exact hinv (e, s) hmem
  · intro p hp
    exact hinv p (process_retry_go_retry_sub _ st p hp)
  · unfold RetryInv
    rw [dequeue_retry]
    exact hinv
  · unfold RetryInv
    rw [reclaim_stalled_jobs, reclaim_go_retry]
    exact hinv
  · unfold RetryInv
    rw [complete_job, complete_go_retry]
    exact hinv

/-- A store whose retry partition holds one well-formed entry. -/
def stR : Store := { Store.empty with retry := [(serialize jStalled, 1)] }

/-- Witness for `retry_scheduled_at_invariant` on a store with one
well-formed retry entry: promotion completes without error or panic, and
a retry insertion preserves the invariant. -/
theorem retry_scheduled_at_invariant_witness :
    (process_retry_queue 5000 stR).2 = .ok () ∧
    RetryInv (retry_job QueueConfig.default 5000 jB "e" stR).1 :=
  ⟨(retry_scheduled_at_invariant QueueConfig.default 5000 jB "e" "jid" 3 id stR
      (by unfold RetryInv; decide)).2.2.1,
   (retry_scheduled_at_invariant QueueConfig.default 5000 jB "e" "jid" 3 id stR
      (by unfold RetryInv; decide)).2.1⟩

end Zaps
